import Mathlib

/-!
Verification of the LiveCut slot-pool manager and command orchestrator
(`src/livecut.ts`).

The development is a shallow embedding of the pool code: the queue directory
is modelled as a map from slot numbers to the set of artifact files present
(each artifact carries an abstract content identifier so that moves can be
tracked), the in-memory `slotState` array is modelled as a map from `Int`
indices to states (the code indexes `slotState[slot - 1]`, which for the
out-of-range sentinel `slot = 0` writes the JavaScript property `-1`; the
`Int` domain represents that faithfully), and each `while` loop of the
source is embedded as a structurally recursive function on an explicit
fuel argument that is a strict upper bound on the loop's iteration count
(every loop advances its counter by exactly one per iteration and stops
once the counter passes `queueSlots`, so `queueSlots + 1` fuel always
suffices from a start counter of at least 1).

External collaborators (LosslessCut, ffprobe, ffmpeg, ffmpeg-concat) are
modelled by an environment of outcomes: a flag per invocation telling
whether it succeeds, plus an arbitrary disk transformation for the
interactive editor session.
-/

namespace LiveCut

/-- Abstract identifier for the content of one on-disk media file. -/
abbrev Content := Nat

/-- The artifact files of one replay slot (`orig`, `-cutted`, `-faded`,
`-overlayed`, `-proj`): `none` means the file does not exist, `some c`
means a file with content `c` exists at the slot's path for that kind. -/
structure SlotFiles where
  orig      : Option Content
  cutted    : Option Content
  faded     : Option Content
  overlayed : Option Content
  proj      : Option Content
deriving DecidableEq, Repr

/-- A slot with no artifact files at all. -/
def emptySlot : SlotFiles :=
  { orig := none, cutted := none, faded := none, overlayed := none, proj := none }

/-- The queue directory: which artifact files exist for each slot number.
Slot numbers are 1-based; index 0 is the bogus path family
`replay-00*.mp4` that `slotName(0)` produces. -/
def Disk := Nat → SlotFiles

/-- The slot states of the source's `enum SlotStates`. -/
inductive SlotStates where
  | CLEAR
  | UNCUTTED
  | CUTTED
deriving DecidableEq, Repr

/-- The process state: the queue directory, the in-memory `slotState`
array (indexed by `Int` because the code writes `slotState[slot - 1]`
and `slot` can be the sentinel 0, making the index `-1`), the `progress`
flag and the current transition key. -/
structure St where
  disk       : Disk
  states     : Int → SlotStates
  progress   : Bool
  transition : String

/-- Whether the slot's `original` artifact exists
(the source's `slotUsed(slot)` with default kind `orig`). -/
def slotUsed (d : Disk) (slot : Nat) : Bool :=
  (d slot).orig.isSome

/-- Effect of `slotMove`'s renames on two slots: the `orig` file is renamed
unconditionally (call sites guarantee the source `orig` exists, otherwise
the rename would throw), every other artifact kind is renamed only when it
exists at the source — so a kind missing at the source leaves whatever the
destination already had for that kind in place. `s` is the source slot's
files, `t` the destination slot's files before the move. -/
def moveOnto (s t : SlotFiles) : SlotFiles :=
  { orig      := s.orig
    cutted    := if s.cutted.isSome then s.cutted else t.cutted
    faded     := if s.faded.isSome then s.faded else t.faded
    overlayed := if s.overlayed.isSome then s.overlayed else t.overlayed
    proj      := if s.proj.isSome then s.proj else t.proj }

/-- Disk effect of `slotMove(slotSrc, slotDst)`: the destination receives
the source's artifacts, the source ends up with no artifacts. -/
def diskMove (d : Disk) (src dst : Nat) : Disk :=
  fun i => if i = dst then moveOnto (d src) (d dst)
           else if i = src then emptySlot
           else d i

/-- The source's `slotMove`: renames the artifact files and then performs
`slotState[slotDst - 1] = slotState[slotSrc - 1]; slotState[slotSrc - 1] = CLEAR`. -/
def slotMoveSt (st : St) (src dst : Nat) : St :=
  { st with
    disk := diskMove st.disk src dst
    states := fun i =>
      if i = (src : Int) - 1 then SlotStates.CLEAR
      else if i = (dst : Int) - 1 then st.states ((src : Int) - 1)
      else st.states i }

/-- The source's `slotClear`: unlinks every artifact file that exists for
the slot and sets `slotState[slot - 1] = CLEAR`. -/
def slotClearSt (st : St) (slot : Nat) : St :=
  { st with
    disk := fun i => if i = slot then emptySlot else st.disk i
    states := fun i =>
      if i = (slot : Int) - 1 then SlotStates.CLEAR else st.states i }

/-- The inner `while` loop of `slotCompress`: starting at `j`, scan upward
for the first slot `≤ qs` whose `original` artifact exists; `none` when the
scan runs past `qs`. `fuel` bounds the iteration count. -/
def findUsedGo (d : Disk) (qs : Nat) : Nat → Nat → Option Nat
  | 0, _ => none
  | fuel + 1, j =>
    if j ≤ qs then
      if slotUsed d j then some j else findUsedGo d qs fuel (j + 1)
    else none

/-- First used slot in `[j, qs]`, as scanned by `slotCompress`'s inner loop
(`qs + 1` fuel suffices from any start `j ≥ 1`). -/
def findUsed (d : Disk) (qs j : Nat) : Option Nat :=
  findUsedGo d qs (qs + 1) j

/-- The `while` loop of the source's `slotFree`: starting at `slot`, scan
upward for the first slot whose `original` artifact is absent, stopping
once the counter passes `qs` (in which case the counter itself, `qs + 1`,
is returned, as in the source). -/
def slotFreeGo (qs : Nat) (d : Disk) : Nat → Nat → Nat
  | 0, slot => slot
  | fuel + 1, slot =>
    if slot ≤ qs then
      if slotUsed d slot then slotFreeGo qs d fuel (slot + 1) else slot
    else slot

/-- The source's `slotFree`: first free slot in `[1, qs]`, or the failure
sentinel `0` when every slot is used. -/
def slotFree (qs : Nat) (d : Disk) : Nat :=
  let slot := slotFreeGo qs d (qs + 1) 1
  if qs < slot then 0 else slot

/-- The outer `while` loop of the source's `slotCompress`, instrumented
with a trace of the `slotMove` calls it performs: each trace entry records
the process state at the moment of the call together with the `(src, dst)`
pair passed to `slotMove(j, slot++)`. The first component of the result is
the final state. -/
def compressGoSt (qs : Nat) : Nat → Nat → St → St × List (St × Nat × Nat)
  | 0, _, st => (st, [])
  | fuel + 1, slot, st =>
    if slot ≤ qs then
      if slotUsed st.disk slot then
        compressGoSt qs fuel (slot + 1) st
      else
        match findUsed st.disk qs slot with
        | none => (st, [])
        | some j =>
          let r := compressGoSt qs fuel (slot + 1) (slotMoveSt st j slot)
          (r.1, (st, j, slot) :: r.2)
    else (st, [])

/-- `slotCompress` together with the trace of its `slotMove` calls. -/
def slotCompressTr (qs : Nat) (st : St) : St × List (St × Nat × Nat) :=
  compressGoSt qs (qs + 1) 1 st

/-- The source's `slotCompress`. -/
def slotCompressSt (qs : Nat) (st : St) : St :=
  (slotCompressTr qs st).1

/-- The state-derivation rule of `slotUpdateState`'s loop body:
`CUTTED` when both the `cutted` and the `original` artifact exist,
`UNCUTTED` when only the `original` exists, `CLEAR` otherwise. -/
def deriveState (f : SlotFiles) : SlotStates :=
  if f.cutted.isSome && f.orig.isSome then SlotStates.CUTTED
  else if f.orig.isSome then SlotStates.UNCUTTED
  else SlotStates.CLEAR

/-- The source's `slotUpdateState`: for every slot `1..qs`, stat the
`cutted` and `orig` artifacts and overwrite `slotState[slot - 1]` with the
derived state; array entries outside `0..qs-1` are untouched. -/
def slotUpdateStateSt (qs : Nat) (st : St) : St :=
  { st with
    states := fun i =>
      if 0 ≤ i ∧ i < (qs : Int) then deriveState (st.disk (i + 1).toNat)
      else st.states i }

/-- Outcomes of the external collaborators: whether the editor invocation
succeeds (and, when it does, how the detached editing session transforms
the queue directory), and whether each per-slot ffprobe / audio-fade /
overlay step and the final concatenation succeed. -/
structure ExtEnv where
  editorOk  : Bool
  editorFx  : Disk → Disk
  probeOk   : Nat → Bool
  fadeOk    : Nat → Bool
  overlayOk : Nat → Bool
  concatOk  : Bool

/-- The source's `cmdEdit`: rejected (log only) when the slot's `original`
artifact is absent; otherwise `progress` is set, the editor runs (an
invocation error is caught and logged, leaving the disk unchanged),
`progress` is cleared and `slotUpdateState` re-derives the states. -/
def cmdEditSt (qs : Nat) (env : ExtEnv) (st : St) (slot : Nat) : St :=
  if slotUsed st.disk slot then
    let d1 := if env.editorOk then env.editorFx st.disk else st.disk
    slotUpdateStateSt qs { st with disk := d1, progress := false }
  else st

/-- The source's `cmdClear`: rejected (log only) when the slot's `original`
artifact is absent; otherwise `slotClear` then `slotCompress`. -/
def cmdClearSt (qs : Nat) (st : St) (slot : Nat) : St :=
  if slotUsed st.disk slot then slotCompressSt qs (slotClearSt st slot)
  else st

/-- The fixed transition table of the source, in object-key insertion
order: `(key, GL transition name, duration)`. -/
def transitionsTable : List (String × String × Nat) :=
  [ ("CUTX", "fade", 33), ("PERL", "perlin", 300), ("FADE", "fade", 300)
  , ("ZOOM", "crosszoom", 300), ("MRPH", "morph", 300), ("DREA", "dreamy", 300)
  , ("RIPP", "ripple", 300), ("WARP", "directionalwarp", 300)
  , ("WIPE", "wipeleft", 300), ("RADI", "radial", 300), ("CUBE", "cube", 400)
  , ("SWAP", "swap", 400) ]

/-- `Object.keys(transitions)`: the ordered list of transition keys. -/
def transitionKeys : List String :=
  transitionsTable.map Prod.fst

/-- The descriptor `(name, duration)` looked up for a transition key. -/
def transitionLookup (t : String) : Option (String × Nat) :=
  (transitionsTable.find? (fun e => e.1 = t)).map Prod.snd

/-- The source's `cmdTransition` index computation:
`(T.findIndex(t => t === transition) + 1) % T.length` — a missing key gives
`findIndex = -1` and hence index 0. -/
def nextTransition (t : String) : String :=
  let T := transitionKeys
  let i := match T.findIdx? (fun k => k = t) with
           | some j => (j + 1) % T.length
           | none => 0
  T.getD i ""

/-- The source's `cmdTransition`. -/
def cmdTransitionSt (st : St) : St :=
  { st with transition := nextTransition st.transition }

/-- The source's `cmdPreview`: sets `progress`, invokes the editor on the
output file (an invocation error is caught and logged), clears
`progress`. The queue directory is untouched. -/
def cmdPreviewSt (st : St) : St :=
  { st with progress := false }

/-- Disk effect of the audio-fade step for slot `i`: ffmpeg reads the
slot's `cutted` file and writes the slot's `faded` file. -/
def setFaded (d : Disk) (i : Nat) : Disk :=
  fun x => if x = i then { d i with faded := (d i).cutted } else d x

/-- Disk effect of the overlay step for slot `i`: ffmpeg reads the slot's
`faded` file and writes the slot's `overlayed` file. -/
def setOverlayed (d : Disk) (i : Nat) : Disk :=
  fun x => if x = i then { d i with overlayed := (d i).faded } else d x

/-- The first `for (const i of replays)` loop of `cmdExport`: per slot, an
ffprobe call and then the audio-fade ffmpeg run. Both promises reject
without a catch, so a failure throws out of `cmdExport`; the error value
carries the disk at the moment of the throw. -/
def fadeLoop (env : ExtEnv) : List Nat → Disk → Except Disk Disk
  | [], d => Except.ok d
  | i :: rest, d =>
    if env.probeOk i then
      if env.fadeOk i then fadeLoop env rest (setFaded d i)
      else Except.error d
    else Except.error d

/-- The second `for (const i of replays)` loop of `cmdExport`: the overlay
ffmpeg run per slot; a rejection throws out of `cmdExport`. -/
def overlayLoop (env : ExtEnv) : List Nat → Disk → Except Disk Disk
  | [], d => Except.ok d
  | i :: rest, d =>
    if env.overlayOk i then overlayLoop env rest (setOverlayed d i)
    else Except.error d

/-- Result of `cmdExport`: an early return because no `cutted` artifact
was found, an uncaught rejection propagating out of the command (carrying
the state at the throw), or a completed run recording the clip list and
transition descriptor passed to `ffmpeg-concat` and whether the
concatenation (whose error alone is caught and logged) succeeded. -/
inductive ExportOutcome where
  | noReplays (st : St)
  | thrown (st : St)
  | done (st : St) (clips : List Nat) (descriptor : Option (String × Nat))
         (concatOk : Bool)

/-- The process state a `cmdExport` run ends in (for a thrown run, the
state at the moment the rejection escaped). -/
def ExportOutcome.finalSt : ExportOutcome → St
  | .noReplays st => st
  | .thrown st => st
  | .done st _ _ _ => st

/-- The `progress` flag a `cmdExport` run leaves behind. -/
def ExportOutcome.progressFlag (o : ExportOutcome) : Bool :=
  o.finalSt.progress

/-- Whether the `cmdExport` run ended in an uncaught rejection. -/
def ExportOutcome.isThrown : ExportOutcome → Bool
  | .thrown _ => true
  | _ => false

/-- The clip list handed to `ffmpeg-concat`, when reached. -/
def ExportOutcome.clips : ExportOutcome → Option (List Nat)
  | .done _ clips _ _ => some clips
  | _ => none

/-- The source's `cmdExport`: a defensive `slotCompress` + `slotUpdateState`,
then the replay scan `for (let i = 0; i < queueSlots; i++)` testing
`slotUsed(i, "cutted")` — note the loop variable starts at 0 and stays
below `queueSlots`, so the scanned slot numbers are `0..qs-1`. With no hit
the command returns early ("no cutted replays available") before touching
`progress`. Otherwise `progress` is set and the fade, overlay and
concatenation stages run. -/
def cmdExportSt (qs : Nat) (env : ExtEnv) (st : St) : ExportOutcome :=
  let st1 := slotUpdateStateSt qs (slotCompressSt qs st)
  let replays := (List.range qs).filter (fun i => (st1.disk i).cutted.isSome)
  if replays.isEmpty then ExportOutcome.noReplays st1
  else
    let st2 := { st1 with progress := true }
    match fadeLoop env replays st2.disk with
    | Except.error d => ExportOutcome.thrown { st2 with disk := d }
    | Except.ok d1 =>
      match overlayLoop env replays d1 with
      | Except.error d => ExportOutcome.thrown { st2 with disk := d }
      | Except.ok d2 =>
        ExportOutcome.done { st2 with disk := d2, progress := false }
          replays (transitionLookup st2.transition) env.concatOk

/-- The watcher's "add" handler body for a file matching the input regex
(`c` is the new file's content): `slotFree()` is called and its result used
directly — without checking the `0` failure sentinel — as the target of
`fs.promises.rename(p, slotName(slot))` and of
`slotState[slot - 1] = UNCUTTED`. On a full pool this places the file at
the slot-0 path and writes array index `-1`. -/
def ingestMatch (qs : Nat) (st : St) (c : Content) : St :=
  let slot := slotFree qs st.disk
  { st with
    disk := fun i => if i = slot then { st.disk slot with orig := some c }
                     else st.disk i
    states := fun i => if i = (slot : Int) - 1 then SlotStates.UNCUTTED
                       else st.states i }

/-- An inbound WebSocket command message: either a payload that fails the
shape validation (not an object, or not `{cmd: string, slot: number}`), or
a well-formed command name and slot number. -/
inductive Payload where
  | malformed
  | command (cmd : String) (slot : Int)

/-- The handler's reply to the issuing client: HTTP 200 with `{}`, a
`Boom.badRequest` client error, or a server error from an exception
escaping a command function. -/
inductive Reply where
  | ok
  | badRequest
  | serverError
deriving DecidableEq, Repr

/-- The source's route handler: malformed payloads and unrecognized
command/slot combinations are answered with `Boom.badRequest`; otherwise
the matching command function runs and the handler replies 200. An
exception escaping a command function (only `cmdExport` can throw) becomes
a server error. -/
def handle (qs : Nat) (env : ExtEnv) (p : Payload) (st : St) : St × Reply :=
  match p with
  | Payload.malformed => (st, Reply.badRequest)
  | Payload.command c slot =>
    if c = "EDIT" ∧ 1 ≤ slot ∧ slot ≤ (qs : Int) then
      (cmdEditSt qs env st slot.toNat, Reply.ok)
    else if c = "CLEAR" ∧ 1 ≤ slot ∧ slot ≤ (qs : Int) then
      (cmdClearSt qs st slot.toNat, Reply.ok)
    else if c = "TRANSITION" ∧ slot = 0 then
      (cmdTransitionSt st, Reply.ok)
    else if c = "EXPORT" ∧ slot = 0 then
      match cmdExportSt qs env st with
      | ExportOutcome.noReplays s => (s, Reply.ok)
      | ExportOutcome.thrown s => (s, Reply.serverError)
      | ExportOutcome.done s _ _ _ => (s, Reply.ok)
    else if c = "PREVIEW" ∧ slot = 0 then
      (cmdPreviewSt st, Reply.ok)
    else (st, Reply.badRequest)

/-- The used slots of `d` are downward closed on `[1, qs]`: every slot
below a used slot is used. -/
def UsedDownClosed (qs : Nat) (d : Disk) : Prop :=
  ∀ i j, 1 ≤ i → i ≤ j → j ≤ qs → slotUsed d j = true → slotUsed d i = true

/-- The used slots of `d` (those whose `original` artifact exists) occupy
exactly a dense prefix `1..k` of `[1, qs]` for some `k ≤ qs`. -/
def DenseUsed (qs : Nat) (d : Disk) : Prop :=
  ∃ k, k ≤ qs ∧ ∀ i, 1 ≤ i → i ≤ qs → (slotUsed d i = true ↔ i ≤ k)

/-- The in-memory slots whose state differs from `CLEAR` occupy exactly a
dense prefix `1..k` of `[1, qs]` for some `k ≤ qs`. -/
def DenseStates (qs : Nat) (st : St) : Prop :=
  ∃ k, k ≤ qs ∧ ∀ i, 1 ≤ i → i ≤ qs →
    (st.states ((i : Int) - 1) ≠ SlotStates.CLEAR ↔ i ≤ k)

/-- The in-memory state array agrees with the disk on which slots are
used: for every slot `1..qs`, `slotState[slot-1] = CLEAR` exactly when the
slot's `original` artifact is absent (the invariant `slotUpdateState`
establishes and every pool operation maintains). -/
def Agree (qs : Nat) (st : St) : Prop :=
  ∀ i, i < qs →
    (st.states (i : Int) = SlotStates.CLEAR ↔ (st.disk (i + 1)).orig = none)

/-- No slot of `[1, qs]` holds stray artifacts: a slot whose `original`
artifact is absent holds no artifact files at all (`slotClear` deletes
every artifact kind, so the pool maintains this). -/
def Tidy (qs : Nat) (d : Disk) : Prop :=
  ∀ i, i < qs → ((d (i + 1)).orig = none → d (i + 1) = emptySlot)

/-- The in-memory state array is exactly the one `slotUpdateState` derives
from the current disk. -/
def Refreshed (qs : Nat) (st : St) : Prop :=
  ∀ i, i < qs → st.states (i : Int) = deriveState (st.disk (i + 1))

instance (qs : Nat) (st : St) : Decidable (Agree qs st) := by
  unfold Agree
  infer_instance

instance (qs : Nat) (d : Disk) : Decidable (Tidy qs d) := by
  unfold Tidy
  infer_instance

/-- The contents of the used slots among `[i, i + n)`, in increasing slot
order (recursion on the remaining count `n`). -/
def seqFrom (d : Disk) : Nat → Nat → List SlotFiles
  | 0, _ => []
  | n + 1, i =>
    if slotUsed d i then d i :: seqFrom d n (i + 1) else seqFrom d n (i + 1)

/-- The contents of the used slots among `1..qs`, in increasing slot
order. -/
def usedSeq (qs : Nat) (d : Disk) : List SlotFiles :=
  seqFrom d qs 1

/-- Example pool of capacity 5 from the specification: slots 1, 3, 5 hold
originals (contents 10, 30, 50), slots 2 and 4 are clear. -/
def exDisk5 : Disk :=
  fun i =>
    if i = 1 then { emptySlot with orig := some 10 }
    else if i = 3 then { emptySlot with orig := some 30 }
    else if i = 5 then { emptySlot with orig := some 50 }
    else emptySlot

/-- Process state for the capacity-5 example, with a state array agreeing
with the disk. -/
def exSt5 : St :=
  { disk := exDisk5
    states := fun i =>
      if i = 0 ∨ i = 2 ∨ i = 4 then SlotStates.UNCUTTED else SlotStates.CLEAR
    progress := false
    transition := "PERL" }

/-- Full pool of capacity 2: both slots hold originals (contents 1, 2). -/
def fullDisk2 : Disk :=
  fun i =>
    if i = 1 then { emptySlot with orig := some 1 }
    else if i = 2 then { emptySlot with orig := some 2 }
    else emptySlot

/-- Process state for the full capacity-2 pool. -/
def fullSt2 : St :=
  { disk := fullDisk2
    states := fun i =>
      if i = 0 ∨ i = 1 then SlotStates.UNCUTTED else SlotStates.CLEAR
    progress := false
    transition := "PERL" }

/-- Pool of capacity 1 whose single slot is in `CUTTED` state: both the
`original` and the `cutted` artifact exist. -/
def cutSt1 : St :=
  { disk := fun i =>
      if i = 1 then { emptySlot with orig := some 1, cutted := some 2 }
      else emptySlot
    states := fun i => if i = 0 then SlotStates.CUTTED else SlotStates.CLEAR
    progress := false
    transition := "PERL" }

/-- Pool of capacity 2 with both slots in `CUTTED` state. -/
def cutSt2 : St :=
  { disk := fun i =>
      if i = 1 then { emptySlot with orig := some 1, cutted := some 11 }
      else if i = 2 then { emptySlot with orig := some 2, cutted := some 12 }
      else emptySlot
    states := fun i =>
      if i = 0 ∨ i = 1 then SlotStates.CUTTED else SlotStates.CLEAR
    progress := false
    transition := "PERL" }

/-- Environment in which every external tool invocation succeeds and the
editor session leaves the queue directory unchanged. -/
def envOk : ExtEnv :=
  { editorOk := true, editorFx := id, probeOk := fun _ => true
    fadeOk := fun _ => true, overlayOk := fun _ => true, concatOk := true }

/-- Environment in which the audio-fade ffmpeg run for slot 1 fails and
everything else succeeds. -/
def envFadeFail1 : ExtEnv :=
  { envOk with fadeOk := fun i => !(i == 1) }

/-- Process state of an entirely clear pool. -/
def emptySt : St :=
  { disk := fun _ => emptySlot
    states := fun _ => SlotStates.CLEAR
    progress := false
    transition := "PERL" }

/-- Clear pool whose current transition selection is the last key of the
transition table. -/
def swapSt : St :=
  { disk := fun _ => emptySlot
    states := fun _ => SlotStates.CLEAR
    progress := false
    transition := "SWAP" }

lemma findUsedGo_none (d : Disk) (qs : Nat) :
    ∀ fuel j, qs + 1 ≤ fuel + j → findUsedGo d qs fuel j = none →
      ∀ x, j ≤ x → x ≤ qs → slotUsed d x = false := by
  intro fuel
  induction fuel with
  | zero =>
    intro j hfj _ x hx1 hx2
    omega
  | succ n ih =>
    intro j hfj h x hx1 hx2
    have hj : j ≤ qs := by omega
    rw [findUsedGo, if_pos hj] at h
    cases hu : slotUsed d j with
    | true => rw [if_pos hu] at h; exact absurd h (by simp)
    | false =>
      rw [if_neg (by simp [hu])] at h
      rcases Nat.eq_or_lt_of_le hx1 with rfl | hlt
      · exact hu
      · exact ih (j + 1) (by omega) h x (by omega) hx2

lemma findUsedGo_some (d : Disk) (qs : Nat) :
    ∀ fuel j a, findUsedGo d qs fuel j = some a →
      j ≤ a ∧ a ≤ qs ∧ slotUsed d a = true ∧
      ∀ x, j ≤ x → x < a → slotUsed d x = false := by
  intro fuel
  induction fuel with
  | zero =>
    intro j a h
    exact absurd h (by simp [findUsedGo])
  | succ n ih =>
    intro j a h
    rw [findUsedGo] at h
    by_cases hj : j ≤ qs
    · rw [if_pos hj] at h
      cases hu : slotUsed d j with
      | true =>
        rw [if_pos hu] at h
        obtain rfl : j = a := by simpa using h
        exact ⟨le_refl _, hj, hu, fun x hx1 hx2 => by omega⟩
      | false =>
        rw [if_neg (by simp [hu])] at h
        obtain ⟨h1, h2, h3, h4⟩ := ih (j + 1) a h
        refine ⟨by omega, h2, h3, fun x hx1 hx2 => ?_⟩
        rcases Nat.eq_or_lt_of_le hx1 with rfl | hlt
        · exact hu
        · exact h4 x (by omega) hx2
    · rw [if_neg hj] at h
      exact absurd h (by simp)

lemma slotFreeGo_spec (qs : Nat) (d : Disk) :
    ∀ fuel start, qs + 1 ≤ fuel + start → start ≤ qs + 1 →
      start ≤ slotFreeGo qs d fuel start ∧
      slotFreeGo qs d fuel start ≤ qs + 1 ∧
      (∀ x, start ≤ x → x < slotFreeGo qs d fuel start → slotUsed d x = true) ∧
      (slotFreeGo qs d fuel start ≤ qs →
        slotUsed d (slotFreeGo qs d fuel start) = false) := by
  intro fuel
  induction fuel with
  | zero =>
    intro start hf hs
    have : start = qs + 1 := by omega
    rw [slotFreeGo]
    exact ⟨le_refl _, by omega, fun x hx1 hx2 => by omega, fun hle => by omega⟩
  | succ n ih =>
    intro start hf hs
    rw [slotFreeGo]
    by_cases hst : start ≤ qs
    · rw [if_pos hst]
      by_cases hu : slotUsed d start = true
      · rw [if_pos hu]
        obtain ⟨h1, h2, h3, h4⟩ := ih (start + 1) (by omega) (by omega)
        refine ⟨by omega, h2, fun x hx1 hx2 => ?_, h4⟩
        rcases Nat.eq_or_lt_of_le hx1 with rfl | hlt
        · exact hu
        · exact h3 x (by omega) hx2
      · rw [if_neg hu]
        exact ⟨le_refl _, by omega, fun x hx1 hx2 => by omega,
          fun _ => by simpa using hu⟩
    · rw [if_neg hst]
      exact ⟨le_refl _, by omega, fun x hx1 hx2 => by omega, fun hle => by omega⟩

lemma slotFree_spec (qs : Nat) (d : Disk) :
    (slotFree qs d = 0 ∧ ∀ x, 1 ≤ x → x ≤ qs → slotUsed d x = true) ∨
    (1 ≤ slotFree qs d ∧ slotFree qs d ≤ qs ∧
      slotUsed d (slotFree qs d) = false ∧
      ∀ x, 1 ≤ x → x < slotFree qs d → slotUsed d x = true) := by
  obtain ⟨h1, h2, h3, h4⟩ := slotFreeGo_spec qs d (qs + 1) 1 (by omega) (by omega)
  rw [slotFree]
  by_cases hgt : qs < slotFreeGo qs d (qs + 1) 1
  · left
    rw [if_pos hgt]
    exact ⟨rfl, fun x hx1 hx2 => h3 x hx1 (by omega)⟩
  · right
    rw [if_neg hgt]
    exact ⟨h1, by omega, h4 (by omega), fun x hx1 hx2 => h3 x hx1 hx2⟩

lemma agree_spec {qs : Nat} {st : St} (h : Agree qs st) :
    ∀ x, 1 ≤ x → x ≤ qs →
      (st.states ((x : Int) - 1) = SlotStates.CLEAR ↔ (st.disk x).orig = none) := by
  intro x h1 h2
  have h3 := h (x - 1) (by omega)
  have e1 : ((x - 1 : Nat) : Int) = (x : Int) - 1 := by omega
  have e2 : x - 1 + 1 = x := by omega
  rw [e1, e2] at h3
  exact h3

lemma agree_intro {qs : Nat} {st : St}
    (h : ∀ x, 1 ≤ x → x ≤ qs →
      (st.states ((x : Int) - 1) = SlotStates.CLEAR ↔ (st.disk x).orig = none)) :
    Agree qs st := by
  intro i hi
  have h3 := h (i + 1) (by omega) (by omega)
  have e : ((i + 1 : Nat) : Int) - 1 = (i : Int) := by omega
  rwa [e] at h3

lemma tidy_spec {qs : Nat} {d : Disk} (h : Tidy qs d) :
    ∀ x, 1 ≤ x → x ≤ qs → (d x).orig = none → d x = emptySlot := by
  intro x h1 h2 h3
  have h4 := h (x - 1) (by omega)
  have e : x - 1 + 1 = x := by omega
  rw [e] at h4
  exact h4 h3

lemma agree_slotMove {qs : Nat} {st : St} {src dst : Nat}
    (h : Agree qs st) (h1 : 1 ≤ dst) (h2 : dst < src) (h3 : src ≤ qs) :
    Agree qs (slotMoveSt st src dst) := by
  apply agree_intro
  intro x hx1 hx2
  simp only [slotMoveSt, diskMove]
  by_cases hxs : x = src
  · subst hxs
    rw [if_pos rfl, if_neg (by omega : ¬ x = dst)]
    simp [emptySlot]
  · by_cases hxd : x = dst
    · subst hxd
      rw [if_neg (by omega : ¬ (x : Int) - 1 = (src : Int) - 1), if_pos rfl,
        if_pos rfl]
      simpa [moveOnto] using agree_spec h src (by omega) h3
    · rw [if_neg (by omega : ¬ (x : Int) - 1 = (src : Int) - 1),
        if_neg (by omega : ¬ (x : Int) - 1 = (dst : Int) - 1),
        if_neg hxd, if_neg hxs]
      exact agree_spec h x hx1 hx2

lemma agree_slotClear {qs : Nat} {st : St} (slot : Nat) (h : Agree qs st) :
    Agree qs (slotClearSt st slot) := by
  apply agree_intro
  intro x hx1 hx2
  simp only [slotClearSt]
  by_cases hxs : x = slot
  · subst hxs
    rw [if_pos rfl, if_pos rfl]
    simp [emptySlot]
  · rw [if_neg (by omega : ¬ (x : Int) - 1 = (slot : Int) - 1), if_neg hxs]
    exact agree_spec h x hx1 hx2

lemma compressGoSt_succ (qs n slot : Nat) (st : St) :
    compressGoSt qs (n + 1) slot st =
      if slot ≤ qs then
        if slotUsed st.disk slot then compressGoSt qs n (slot + 1) st
        else
          match findUsed st.disk qs slot with
          | none => (st, [])
          | some j =>
            let r := compressGoSt qs n (slot + 1) (slotMoveSt st j slot)
            (r.1, (st, j, slot) :: r.2)
      else (st, []) := rfl

lemma slotMove_used_lt {st : St} {j slot : Nat} (i : Nat)
    (hij : i < slot) (hsj : slot < j) :
    slotUsed (slotMoveSt st j slot).disk i = slotUsed st.disk i := by
  simp only [slotMoveSt, diskMove, slotUsed]
  rw [if_neg (by omega : ¬ i = slot), if_neg (by omega : ¬ i = j)]

lemma slotMove_used_dst {st : St} {j slot : Nat} :
    slotUsed (slotMoveSt st j slot).disk slot = slotUsed st.disk j := by
  simp [slotMoveSt, diskMove, slotUsed, moveOnto]

lemma compress_basic (qs : Nat) :
    ∀ fuel slot st, 1 ≤ slot → qs + 1 ≤ fuel + slot →
      (∀ i, 1 ≤ i → i < slot → slotUsed st.disk i = true) →
      UsedDownClosed qs (compressGoSt qs fuel slot st).1.disk ∧
      (Agree qs st → Agree qs (compressGoSt qs fuel slot st).1) ∧
      (∀ e ∈ (compressGoSt qs fuel slot st).2,
        1 ≤ e.2.2 ∧ e.2.2 < e.2.1 ∧ e.2.1 ≤ qs ∧
        slotUsed e.1.disk e.2.2 = false ∧ slotUsed e.1.disk e.2.1 = true) := by
  intro fuel
  induction fuel with
  | zero =>
    intro slot st h1 h2 hpre
    refine ⟨?_, fun hA => hA, by simp [compressGoSt]⟩
    intro i j hi hij hjq _
    exact hpre i hi (by omega)
  | succ n ih =>
    intro slot st h1 h2 hpre
    rw [compressGoSt_succ]
    by_cases hs : slot ≤ qs
    · rw [if_pos hs]
      by_cases hu : slotUsed st.disk slot = true
      · rw [if_pos hu]
        refine ih (slot + 1) st (by omega) (by omega) ?_
        intro i hi hlt
        rcases Nat.lt_succ_iff_lt_or_eq.mp hlt with hlt' | rfl
        · exact hpre i hi hlt'
        · exact hu
      · rw [if_neg hu]
        cases hf : findUsed st.disk qs slot with
        | none =>
          have hnone := findUsedGo_none st.disk qs (qs + 1) slot (by omega) hf
          refine ⟨?_, fun hA => hA, by simp⟩
          intro i j hi hij hjq hused
          by_cases hjs : j < slot
          · exact hpre i hi (by omega)
          · exact absurd hused (by simp [hnone j (by omega) hjq])
        | some j =>
          obtain ⟨hj1, hj2, hju, hjmin⟩ :=
            findUsedGo_some st.disk qs (qs + 1) slot j hf
          have hslt : slot < j := by
            rcases Nat.eq_or_lt_of_le hj1 with rfl | h
            · exact absurd hju hu
            · exact h
          have hpre' : ∀ i, 1 ≤ i → i < slot + 1 →
              slotUsed (slotMoveSt st j slot).disk i = true := by
            intro i hi hlt
            rcases Nat.lt_succ_iff_lt_or_eq.mp hlt with hlt' | rfl
            · rw [slotMove_used_lt i hlt' hslt]
              exact hpre i hi hlt'
            · rw [slotMove_used_dst]
              exact hju
          obtain ⟨ihD, ihA, ihT⟩ :=
            ih (slot + 1) (slotMoveSt st j slot) (by omega) (by omega) hpre'
          refine ⟨ihD, ?_, ?_⟩
          · intro hA
            exact ihA (agree_slotMove hA (by omega) hslt hj2)
          · intro e he
            simp only [List.mem_cons] at he
            rcases he with rfl | he
            · exact ⟨h1, hslt, hj2, by simpa using hu, hju⟩
            · exact ihT e he
    · rw [if_neg hs]
      refine ⟨?_, fun hA => hA, by simp⟩
      intro i j hi hij hjq _
      exact hpre i hi (by omega)

lemma seqFrom_split (d : Disk) (n m i : Nat) :
    seqFrom d (m + n) i = seqFrom d m i ++ seqFrom d n (i + m) := by
  induction m generalizing i with
  | zero => simp [seqFrom]
  | succ k ihk =>
    have e : k + 1 + n = (k + n) + 1 := by omega
    rw [e, seqFrom, seqFrom]
    have e2 : i + (k + 1) = i + 1 + k := by omega
    rw [e2, ihk (i + 1)]
    by_cases hu : slotUsed d i = true
    · rw [if_pos hu, if_pos hu]
      simp
    · rw [if_neg hu, if_neg hu]

lemma seqFrom_congr {d d2 : Disk} (n : Nat) :
    ∀ i, (∀ x, i ≤ x → x < i + n → d2 x = d x) →
      seqFrom d2 n i = seqFrom d n i := by
  induction n with
  | zero => intro i _; rfl
  | succ k ihk =>
    intro i h
    have hx : d2 i = d i := h i (le_refl _) (by omega)
    have ih' := ihk (i + 1) (fun x hx1 hx2 => h x (by omega) (by omega))
    simp only [seqFrom, slotUsed, hx, ih']

lemma seqFrom_nil {d : Disk} (n : Nat) :
    ∀ i, (∀ x, i ≤ x → x < i + n → slotUsed d x = false) →
      seqFrom d n i = [] := by
  induction n with
  | zero => intro i _; rfl
  | succ k ihk =>
    intro i h
    rw [seqFrom, if_neg (by simp [h i (le_refl _) (by omega)])]
    exact ihk (i + 1) (fun x hx1 hx2 => h x (by omega) (by omega))

lemma seqFrom_one (d : Disk) (i : Nat) :
    seqFrom d 1 i = if slotUsed d i = true then [d i] else [] := rfl

lemma moveOnto_empty (f : SlotFiles) : moveOnto f emptySlot = f := by
  rcases f with ⟨o, c, fa, ov, p⟩
  cases c <;> cases fa <;> cases ov <;> cases p <;> rfl

lemma usedSeq_move {qs s j : Nat} {d : Disk}
    (h1 : 1 ≤ s) (hsj : s < j) (hjq : j ≤ qs)
    (hsEmpty : d s = emptySlot)
    (hmid : ∀ x, s ≤ x → x < j → slotUsed d x = false)
    (hju : slotUsed d j = true) :
    usedSeq qs (diskMove d j s) = usedSeq qs d := by
  obtain ⟨a, ha⟩ : ∃ a, s = 1 + a := ⟨s - 1, by omega⟩
  obtain ⟨b, hb⟩ : ∃ b, j = s + 1 + b := ⟨j - s - 1, by omega⟩
  obtain ⟨c, hc⟩ : ∃ c, qs = j + c := ⟨qs - j, by omega⟩
  have eqs : qs = a + (1 + (b + (1 + c))) := by omega
  have i1 : 1 + a = s := by omega
  have i2 : s + 1 + b = j := by omega
  have decomp : ∀ e : Disk,
      seqFrom e (a + (1 + (b + (1 + c)))) 1 =
        seqFrom e a 1 ++ (seqFrom e 1 s ++ (seqFrom e b (s + 1) ++
          (seqFrom e 1 j ++ seqFrom e c (j + 1)))) := by
    intro e
    rw [seqFrom_split, seqFrom_split, seqFrom_split, seqFrom_split, i1, i2]
  have hd2s : diskMove d j s s = d j := by
    rw [diskMove, if_pos rfl, hsEmpty, moveOnto_empty]
  have hd2j : diskMove d j s j = emptySlot := by
    rw [diskMove, if_neg (by omega : ¬ j = s), if_pos rfl]
  have hseg1 : seqFrom (diskMove d j s) a 1 = seqFrom d a 1 := by
    apply seqFrom_congr
    intro x hx1 hx2
    rw [diskMove, if_neg (by omega : ¬ x = s), if_neg (by omega : ¬ x = j)]
  have hseg5 : seqFrom (diskMove d j s) c (j + 1) = seqFrom d c (j + 1) := by
    apply seqFrom_congr
    intro x hx1 hx2
    rw [diskMove, if_neg (by omega : ¬ x = s), if_neg (by omega : ¬ x = j)]
  have hmid2 : ∀ x, s + 1 ≤ x → x < s + 1 + b →
      slotUsed (diskMove d j s) x = false := by
    intro x hx1 hx2
    have hx : diskMove d j s x = d x := by
      rw [diskMove, if_neg (by omega : ¬ x = s), if_neg (by omega : ¬ x = j)]
    rw [slotUsed, hx]
    exact hmid x (by omega) (by omega)
  have hnil2 : seqFrom (diskMove d j s) b (s + 1) = [] :=
    seqFrom_nil b (s + 1) hmid2
  have hnil2' : seqFrom d b (s + 1) = [] :=
    seqFrom_nil b (s + 1) (fun x hx1 hx2 => hmid x (by omega) (by omega))
  rw [usedSeq, usedSeq, eqs, decomp, decomp, hseg1, hseg5, hnil2, hnil2',
    seqFrom_one (diskMove d j s) s, seqFrom_one (diskMove d j s) j,
    seqFrom_one d s, seqFrom_one d j,
    if_pos (show slotUsed (diskMove d j s) s = true by
      rw [slotUsed, hd2s]; exact hju),
    if_neg (show ¬ slotUsed (diskMove d j s) j = true by
      rw [slotUsed, hd2j]; simp [emptySlot]),
    if_neg (show ¬ slotUsed d s = true by simp [hmid s (le_refl _) hsj]),
    if_pos hju, hd2s]
  simp

lemma tidy_diskMove {qs : Nat} {d : Disk} {j slot : Nat}
    (hT : Tidy qs d) (hju : slotUsed d j = true) :
    Tidy qs (diskMove d j slot) := by
  intro i hi
  simp only [diskMove]
  by_cases h1 : i + 1 = slot
  · rw [if_pos h1]
    intro hnone
    have : (moveOnto (d j) (d slot)).orig = (d j).orig := rfl
    rw [this] at hnone
    rw [slotUsed, hnone] at hju
    exact absurd hju (by simp)
  · rw [if_neg h1]
    by_cases h2 : i + 1 = j
    · rw [if_pos h2]
      intro _
      rfl
    · rw [if_neg h2]
      exact hT i hi

lemma compress_main (qs : Nat) :
    ∀ fuel slot st, 1 ≤ slot → qs + 1 ≤ fuel + slot →
      (∀ i, 1 ≤ i → i < slot → slotUsed st.disk i = true) →
      Tidy qs st.disk →
      Tidy qs (compressGoSt qs fuel slot st).1.disk ∧
      usedSeq qs (compressGoSt qs fuel slot st).1.disk = usedSeq qs st.disk ∧
      (∀ e ∈ (compressGoSt qs fuel slot st).2, e.1.disk e.2.2 = emptySlot) := by
  intro fuel
  induction fuel with
  | zero =>
    intro slot st h1 h2 hpre hT
    exact ⟨hT, rfl, by simp [compressGoSt]⟩
  | succ n ih =>
    intro slot st h1 h2 hpre hT
    rw [compressGoSt_succ]
    by_cases hs : slot ≤ qs
    · rw [if_pos hs]
      by_cases hu : slotUsed st.disk slot = true
      · rw [if_pos hu]
        refine ih (slot + 1) st (by omega) (by omega) ?_ hT
        intro i hi hlt
        rcases Nat.lt_succ_iff_lt_or_eq.mp hlt with hlt' | rfl
        · exact hpre i hi hlt'
        · exact hu
      · rw [if_neg hu]
        cases hf : findUsed st.disk qs slot with
        | none => exact ⟨hT, rfl, by simp⟩
        | some j =>
          obtain ⟨hj1, hj2, hju, hjmin⟩ :=
            findUsedGo_some st.disk qs (qs + 1) slot j hf
          have hslt : slot < j := by
            rcases Nat.eq_or_lt_of_le hj1 with rfl | h
            · exact absurd hju hu
            · exact h
          have hsEmpty : st.disk slot = emptySlot :=
            tidy_spec hT slot h1 hs
              (by simpa [slotUsed, Option.isSome_iff_ne_none] using hu)
          have hT2 : Tidy qs (slotMoveSt st j slot).disk := tidy_diskMove hT hju
          have hseq : usedSeq qs (slotMoveSt st j slot).disk = usedSeq qs st.disk :=
            usedSeq_move h1 hslt hj2 hsEmpty hjmin hju
          have hpre' : ∀ i, 1 ≤ i → i < slot + 1 →
              slotUsed (slotMoveSt st j slot).disk i = true := by
            intro i hi hlt
            rcases Nat.lt_succ_iff_lt_or_eq.mp hlt with hlt' | rfl
            · rw [slotMove_used_lt i hlt' hslt]
              exact hpre i hi hlt'
            · rw [slotMove_used_dst]
              exact hju
          obtain ⟨ihT, ihS, ihTr⟩ :=
            ih (slot + 1) (slotMoveSt st j slot) (by omega) (by omega) hpre' hT2
          refine ⟨ihT, by rw [ihS, hseq], ?_⟩
          intro e he
          simp only [List.mem_cons] at he
          rcases he with rfl | he
          · exact hsEmpty
          · exact ihTr e he
    · rw [if_neg hs]
      exact ⟨hT, rfl, by simp⟩

lemma denseUsed_of_downClosed {qs : Nat} {d : Disk}
    (h : UsedDownClosed qs d) : DenseUsed qs d := by
  rcases slotFree_spec qs d with ⟨h0, hall⟩ | ⟨h1, h2, h3, h4⟩
  · exact ⟨qs, le_refl _, fun i hi1 hi2 => ⟨fun _ => hi2, fun _ => hall i hi1 hi2⟩⟩
  · refine ⟨slotFree qs d - 1, by omega, fun i hi1 hi2 => ⟨?_, ?_⟩⟩
    · intro hu
      by_contra hgt
      have := h (slotFree qs d) i h1 (by omega) hi2 hu
      rw [h3] at this
      exact absurd this (by simp)
    · intro hle
      exact h4 i hi1 (by omega)

lemma denseStates_of {qs : Nat} {st : St} (hA : Agree qs st)
    (hD : DenseUsed qs st.disk) : DenseStates qs st := by
  obtain ⟨k, hk, hiff⟩ := hD
  refine ⟨k, hk, fun i hi1 hi2 => ?_⟩
  have ha := agree_spec hA i hi1 hi2
  constructor
  · intro hne
    have hno : ¬ (st.disk i).orig = none := fun hn => hne (ha.mpr hn)
    exact (hiff i hi1 hi2).mp (by
      rw [slotUsed]
      exact Option.isSome_iff_ne_none.mpr hno)
  · intro hle hclear
    have := (hiff i hi1 hi2).mpr hle
    rw [slotUsed, Option.isSome_iff_ne_none] at this
    exact this (ha.mp hclear)

lemma compressGo_progress (qs : Nat) :
    ∀ fuel slot st,
      (compressGoSt qs fuel slot st).1.progress = st.progress ∧
      (compressGoSt qs fuel slot st).1.transition = st.transition := by
  intro fuel
  induction fuel with
  | zero => intro slot st; exact ⟨rfl, rfl⟩
  | succ n ih =>
    intro slot st
    rw [compressGoSt_succ]
    by_cases hs : slot ≤ qs
    · rw [if_pos hs]
      by_cases hu : slotUsed st.disk slot = true
      · rw [if_pos hu]
        exact ih (slot + 1) st
      · rw [if_neg hu]
        cases hf : findUsed st.disk qs slot with
        | none => exact ⟨rfl, rfl⟩
        | some j => simpa using ih (slot + 1) (slotMoveSt st j slot)
    · rw [if_neg hs]
      exact ⟨rfl, rfl⟩

lemma fadeLoop_ok {env : ExtEnv}
    (h : ∀ i, env.probeOk i = true ∧ env.fadeOk i = true) :
    ∀ l (d : Disk), ∃ d2, fadeLoop env l d = Except.ok d2 := by
  intro l
  induction l with
  | nil => intro d; exact ⟨d, rfl⟩
  | cons x rest ihr =>
    intro d
    rw [fadeLoop, if_pos (h x).1, if_pos (h x).2]
    exact ihr _

lemma overlayLoop_ok {env : ExtEnv}
    (h : ∀ i, env.overlayOk i = true) :
    ∀ l (d : Disk), ∃ d2, overlayLoop env l d = Except.ok d2 := by
  intro l
  induction l with
  | nil => intro d; exact ⟨d, rfl⟩
  | cons x rest ihr =>
    intro d
    rw [overlayLoop, if_pos (h x)]
    exact ihr _

/-- C1: after a completed CLEAR command — `clear(slot)` followed by
`compact()` — the used slots (on disk and, given the state/disk agreement
invariant, in the in-memory state array) occupy exactly a dense prefix
`1..k` of `[1, N]` for some `k ≤ N`; moreover the other purely
pool-mutating operation, an ingestion event's allocate-and-place, preserves
density of the used slots. -/
theorem c1_clear_then_compact_restores_density (qs : Nat) (st : St)
    (slot : Nat) (c : Content)
    (hA : Agree qs st) (hU : slotUsed st.disk slot = true) :
    DenseUsed qs (cmdClearSt qs st slot).disk ∧
    DenseStates qs (cmdClearSt qs st slot) ∧
    (DenseUsed qs st.disk → DenseUsed qs (ingestMatch qs st c).disk) := by
  have hcc : cmdClearSt qs st slot = slotCompressSt qs (slotClearSt st slot) := by
    rw [cmdClearSt, if_pos hU]
  obtain ⟨hD, hAg, _⟩ :=
    compress_basic qs (qs + 1) 1 (slotClearSt st slot) (by omega) (by omega)
      (fun i hi hlt => by omega)
  have hA1 : Agree qs (slotClearSt st slot) := agree_slotClear slot hA
  have hDense : DenseUsed qs (slotCompressSt qs (slotClearSt st slot)).disk :=
    denseUsed_of_downClosed hD
  refine ⟨by rw [hcc]; exact hDense,
    by rw [hcc]; exact denseStates_of (hAg hA1) hDense, ?_⟩
  intro hDI
  obtain ⟨k, hk, hiff⟩ := hDI
  have hdisk : ∀ i : Nat, (ingestMatch qs st c).disk i =
      if i = slotFree qs st.disk
      then { st.disk (slotFree qs st.disk) with orig := some c }
      else st.disk i := fun i => rfl
  rcases slotFree_spec qs st.disk with ⟨h0, hall⟩ | ⟨h1, h2, h3, h4⟩
  · refine ⟨qs, le_refl _, fun i hi1 hi2 => ?_⟩
    have hun : slotUsed (ingestMatch qs st c).disk i = slotUsed st.disk i := by
      rw [slotUsed, hdisk i, h0, if_neg (by omega)]
      rfl
    rw [hun]
    exact ⟨fun _ => hi2, fun _ => hall i hi1 hi2⟩
  · have hks : k < slotFree qs st.disk := by
      by_contra hle
      have := (hiff (slotFree qs st.disk) h1 h2).mpr (by omega)
      rw [h3] at this
      exact absurd this (by simp)
    refine ⟨slotFree qs st.disk, h2, fun i hi1 hi2 => ?_⟩
    by_cases his : i = slotFree qs st.disk
    · rw [slotUsed, hdisk i, if_pos his]
      simp [his]
    · have hun : slotUsed (ingestMatch qs st c).disk i = slotUsed st.disk i := by
        rw [slotUsed, hdisk i, if_neg his]
        rfl
      rw [hun]
      by_cases hlt : i < slotFree qs st.disk
      · exact ⟨fun _ => by omega, fun _ => h4 i hi1 hlt⟩
      · constructor
        · intro hu
          have := (hiff i hi1 hi2).mp hu
          omega
        · intro hle
          omega

/-- C1 witness: a full pool of capacity 2 with agreeing state array;
CLEAR of slot 1 yields a dense pool and ingestion preserves density. -/
theorem c1_witness :
    Agree 2 fullSt2 ∧ slotUsed fullSt2.disk 1 = true ∧
    (DenseUsed 2 (cmdClearSt 2 fullSt2 1).disk ∧
     DenseStates 2 (cmdClearSt 2 fullSt2 1) ∧
     (DenseUsed 2 fullSt2.disk → DenseUsed 2 (ingestMatch 2 fullSt2 7).disk)) :=
  ⟨by decide, by decide,
    c1_clear_then_compact_restores_density 2 fullSt2 1 7 (by decide) (by decide)⟩

/-- C3: `compact()` is a stable left-compaction — it preserves the
sequence of used-slot contents in slot order and leaves the used slots on
a dense prefix — and on the specification's capacity-5 example with slots
1, 3, 5 occupied it maps former slot 1 to slot 1, former slot 3 to slot 2,
former slot 5 to slot 3, leaving slots 4 and 5 clear. -/
theorem c3_compact_is_stable_left_compaction (qs : Nat) (st : St)
    (hT : Tidy qs st.disk) :
    (usedSeq qs (slotCompressSt qs st).disk = usedSeq qs st.disk ∧
     DenseUsed qs (slotCompressSt qs st).disk) ∧
    ((slotCompressSt 5 exSt5).disk 1 = exDisk5 1 ∧
     (slotCompressSt 5 exSt5).disk 2 = exDisk5 3 ∧
     (slotCompressSt 5 exSt5).disk 3 = exDisk5 5 ∧
     (slotCompressSt 5 exSt5).disk 4 = emptySlot ∧
     (slotCompressSt 5 exSt5).disk 5 = emptySlot) := by
  obtain ⟨hD, _, _⟩ := compress_basic qs (qs + 1) 1 st (by omega) (by omega)
    (fun i hi hlt => by omega)
  obtain ⟨_, hSeq, _⟩ := compress_main qs (qs + 1) 1 st (by omega) (by omega)
    (fun i hi hlt => by omega) hT
  exact ⟨⟨hSeq, denseUsed_of_downClosed hD⟩, by decide⟩

/-- C3 witness: the capacity-5 example pool is tidy, and compaction on it
preserves the used-content sequence and yields a dense prefix. -/
theorem c3_witness :
    Tidy 5 exSt5.disk ∧
    (usedSeq 5 (slotCompressSt 5 exSt5).disk = usedSeq 5 exSt5.disk ∧
     DenseUsed 5 (slotCompressSt 5 exSt5).disk) :=
  ⟨by decide, (c3_compact_is_stable_left_compaction 5 exSt5 (by decide)).1⟩

/-- C10: provided no clear slot holds stray artifact files (the invariant
`slotClear` maintains by deleting every artifact kind), every `slotMove(j,
dst)` that `slotCompress` performs has `1 ≤ dst < j ≤ N`, a destination
slot holding no artifact files at all (so each rename targets a
non-existent path and overwrites nothing), and a used source slot. -/
theorem c10_compaction_moves_target_clear_lower_slot (qs : Nat) (st : St)
    (hT : Tidy qs st.disk) :
    ∀ e ∈ (slotCompressTr qs st).2,
      1 ≤ e.2.2 ∧ e.2.2 < e.2.1 ∧ e.2.1 ≤ qs ∧
      e.1.disk e.2.2 = emptySlot ∧ slotUsed e.1.disk e.2.1 = true := by
  intro e he
  obtain ⟨_, _, hTr⟩ := compress_basic qs (qs + 1) 1 st (by omega) (by omega)
    (fun i hi hlt => by omega)
  obtain ⟨_, _, hTrE⟩ := compress_main qs (qs + 1) 1 st (by omega) (by omega)
    (fun i hi hlt => by omega) hT
  obtain ⟨hb1, hb2, hb3, _, hb5⟩ := hTr e he
  exact ⟨hb1, hb2, hb3, hTrE e he, hb5⟩

/-- C10 witness: on the capacity-5 example (which is tidy), every move of
the compaction run targets a clear lower slot. -/
theorem c10_witness :
    Tidy 5 exSt5.disk ∧
    ∀ e ∈ (slotCompressTr 5 exSt5).2,
      1 ≤ e.2.2 ∧ e.2.2 < e.2.1 ∧ e.2.1 ≤ 5 ∧
      e.1.disk e.2.2 = emptySlot ∧ slotUsed e.1.disk e.2.1 = true :=
  ⟨by decide, c10_compaction_moves_target_clear_lower_slot 5 exSt5 (by decide)⟩

/-- C6: `slotUpdateState` overwrites each slot's in-memory state with the
value derived from disk: `CLEAR` iff no `original` artifact, `UNCUTTED` iff
`original` present and `cutted` absent, `CUTTED` iff both present. -/
theorem c6_refresh_state_derivation (qs : Nat) (st : St) (slot : Nat)
    (h1 : 1 ≤ slot) (h2 : slot ≤ qs) :
    ((slotUpdateStateSt qs st).states ((slot : Int) - 1) =
      deriveState (st.disk slot)) ∧
    (((slotUpdateStateSt qs st).states ((slot : Int) - 1) = SlotStates.CLEAR) ↔
      (st.disk slot).orig = none) ∧
    (((slotUpdateStateSt qs st).states ((slot : Int) - 1) = SlotStates.UNCUTTED) ↔
      ((st.disk slot).orig.isSome = true ∧ (st.disk slot).cutted = none)) ∧
    (((slotUpdateStateSt qs st).states ((slot : Int) - 1) = SlotStates.CUTTED) ↔
      ((st.disk slot).orig.isSome = true ∧ (st.disk slot).cutted.isSome = true)) := by
  have hidx : (slotUpdateStateSt qs st).states ((slot : Int) - 1) =
      deriveState (st.disk slot) := by
    show (if 0 ≤ (slot : Int) - 1 ∧ (slot : Int) - 1 < (qs : Int)
      then deriveState (st.disk ((slot : Int) - 1 + 1).toNat)
      else st.states ((slot : Int) - 1)) = _
    rw [if_pos (by constructor <;> omega)]
    congr 2
    omega
  rw [hidx]
  refine ⟨rfl, ?_, ?_, ?_⟩ <;>
  · rcases ho : (st.disk slot).orig with _ | v <;>
      rcases hc : (st.disk slot).cutted with _ | w <;>
      simp [deriveState, ho, hc]

/-- C6 witness: slot 1 of the capacity-1 CUT pool derives to `CUTTED`. -/
theorem c6_witness :
    ((slotUpdateStateSt 1 cutSt1).states ((1 : Int) - 1) =
      deriveState (cutSt1.disk 1)) ∧
    (((slotUpdateStateSt 1 cutSt1).states ((1 : Int) - 1) = SlotStates.CUTTED) ↔
      ((cutSt1.disk 1).orig.isSome = true ∧ (cutSt1.disk 1).cutted.isSome = true)) :=
  ⟨(c6_refresh_state_derivation 1 cutSt1 1 (by decide) (by decide)).1,
   (c6_refresh_state_derivation 1 cutSt1 1 (by decide) (by decide)).2.2.2⟩

/-- C8: one TRANSITION command advances the selection from the `i`-th key
of the fixed transition list to the `(i+1) mod length`-th key — in
particular it wraps from the last key back to the first. -/
theorem c8_transition_cycles (st : St) (i : Nat)
    (h : i < transitionKeys.length)
    (ht : st.transition = transitionKeys.getD i "") :
    (cmdTransitionSt st).transition =
      transitionKeys.getD ((i + 1) % transitionKeys.length) "" := by
  have hall : ∀ i, i < transitionKeys.length →
      nextTransition (transitionKeys.getD i "") =
        transitionKeys.getD ((i + 1) % transitionKeys.length) "" := by decide
  show nextTransition st.transition = _
  rw [ht]
  exact hall i h

/-- C8 witness: from the last key ("SWAP", index 11) one TRANSITION wraps
to the first key ("CUTX"). -/
theorem c8_witness :
    (cmdTransitionSt swapSt).transition =
      transitionKeys.getD ((11 + 1) % transitionKeys.length) "" ∧
    (cmdTransitionSt swapSt).transition = "CUTX" :=
  ⟨c8_transition_cycles swapSt 11 (by decide) rfl,
   by rw [c8_transition_cycles swapSt 11 (by decide) rfl]; rfl⟩

/-- C2 (failing-input evaluation): on a full capacity-2 pool, `slotFree`
returns the failure sentinel 0, but the ingestion handler does not drop
the event: it renames the matching source file to the slot-0 path
`replay-00.mp4` in the queue directory (so the file is not left untouched
and the queue directory changes) and performs the out-of-bounds write
`slotState[-1] = UNCUTTED`; the visible slots 1..2 are unchanged. -/
theorem c2_full_pool_event_not_dropped :
    slotFree 2 fullSt2.disk = 0 ∧
    ((ingestMatch 2 fullSt2 99).disk 0).orig = some 99 ∧
    (ingestMatch 2 fullSt2 99).states (-1) = SlotStates.UNCUTTED ∧
    (ingestMatch 2 fullSt2 99).disk 1 = fullSt2.disk 1 ∧
    (ingestMatch 2 fullSt2 99).disk 2 = fullSt2.disk 2 ∧
    (ingestMatch 2 fullSt2 99).states 0 = SlotStates.UNCUTTED ∧
    (ingestMatch 2 fullSt2 99).states 1 = SlotStates.UNCUTTED := by
  decide

/-- C4 (failing-input evaluation): `cmdExport` scans slots `0..N-1`
instead of `1..N`. On a capacity-1 pool whose slot 1 is in CUT state the
export returns "no cutted replays available" (no assembler invocation, so
`clips` is `none`), and on a capacity-2 pool with slots 1 and 2 both CUT
the assembler receives only slot 1. -/
theorem c4_export_never_scans_slot_n :
    deriveState (cutSt1.disk 1) = SlotStates.CUTTED ∧
    (cmdExportSt 1 envOk cutSt1).clips = none ∧
    (cmdExportSt 1 envOk cutSt1).isThrown = false ∧
    deriveState (cutSt2.disk 2) = SlotStates.CUTTED ∧
    (cmdExportSt 2 envOk cutSt2).clips = some [1] := by
  decide

/-- C5 counterexample: when the per-clip audio-fade step fails during
EXPORT, the rejection escapes `cmdExport` (the failure is propagated) and
the `progress` flag is left set — contradicting the claim that the flag is
cleared in every failure case and the failure never propagated. -/
theorem c5_counterexample_fade_failure :
    (cmdExportSt 2 envFadeFail1 cutSt2).isThrown = true ∧
    (cmdExportSt 2 envFadeFail1 cutSt2).progressFlag = true := by
  decide

/-- C7 counterexample: CLEAR and EDIT of an already-CLEAR (but in-range)
slot are answered with the 200 success reply, not with a client error —
the rejection is only logged server-side; the state is unchanged. -/
theorem c7_counterexample_wrong_state_is_no_client_error :
    (handle 2 envOk (Payload.command "CLEAR" 1) emptySt).2 = Reply.ok ∧
    (handle 2 envOk (Payload.command "CLEAR" 1) emptySt).1 = emptySt ∧
    (handle 2 envOk (Payload.command "EDIT" 1) emptySt).2 = Reply.ok ∧
    (handle 2 envOk (Payload.command "EDIT" 1) emptySt).1 = emptySt :=
  ⟨rfl, rfl, rfl, rfl⟩

lemma refreshed_slotUpdateState (qs : Nat) (st : St) :
    Refreshed qs (slotUpdateStateSt qs st) := by
  intro i hi
  show (if 0 ≤ (i : Int) ∧ (i : Int) < (qs : Int)
      then deriveState (st.disk ((i : Int) + 1).toNat)
      else st.states (i : Int)) = deriveState (st.disk (i + 1))
  rw [if_pos (by constructor <;> omega)]
  have e : ((i : Int) + 1).toNat = i + 1 := by omega
  rw [e]

lemma cmdExportSt_eq (qs : Nat) (env : ExtEnv) (st : St) :
    cmdExportSt qs env st =
      if ((List.range qs).filter (fun i =>
          ((slotUpdateStateSt qs (slotCompressSt qs st)).disk i).cutted.isSome)).isEmpty
      then ExportOutcome.noReplays (slotUpdateStateSt qs (slotCompressSt qs st))
      else
        match fadeLoop env ((List.range qs).filter (fun i =>
            ((slotUpdateStateSt qs (slotCompressSt qs st)).disk i).cutted.isSome))
            (slotUpdateStateSt qs (slotCompressSt qs st)).disk with
        | Except.error d => ExportOutcome.thrown
            { slotUpdateStateSt qs (slotCompressSt qs st) with
              disk := d, progress := true }
        | Except.ok d1 =>
          match overlayLoop env ((List.range qs).filter (fun i =>
              ((slotUpdateStateSt qs (slotCompressSt qs st)).disk i).cutted.isSome)) d1 with
          | Except.error d => ExportOutcome.thrown
              { slotUpdateStateSt qs (slotCompressSt qs st) with
                disk := d, progress := true }
          | Except.ok d2 => ExportOutcome.done
              { slotUpdateStateSt qs (slotCompressSt qs st) with
                disk := d2, progress := false }
              ((List.range qs).filter (fun i =>
                ((slotUpdateStateSt qs (slotCompressSt qs st)).disk i).cutted.isSome))
              (transitionLookup
                (slotUpdateStateSt qs (slotCompressSt qs st)).transition)
              env.concatOk := rfl

/-- C5 (amended): editor failures during EDIT and PREVIEW are caught, the
`progress` flag ends up cleared and EDIT afterwards refreshes the pool
state from disk, whatever the editor invocation's outcome; for EXPORT the
`progress` flag is cleared and no exception escapes as long as all
per-clip probe/fade/overlay steps succeed — the final concatenation's
failure alone is caught (EXPORT refreshes the pool state at its start, not
afterwards). -/
theorem c5_amended_tool_failure_handling (qs : Nat) (env : ExtEnv) (st : St)
    (slot : Nat) (hp : st.progress = false) :
    (cmdEditSt qs env st slot).progress = false ∧
    (cmdPreviewSt st).progress = false ∧
    (slotUsed st.disk slot = true → Refreshed qs (cmdEditSt qs env st slot)) ∧
    ((∀ i, env.probeOk i = true ∧ env.fadeOk i = true ∧ env.overlayOk i = true) →
      (cmdExportSt qs env st).isThrown = false ∧
      (cmdExportSt qs env st).progressFlag = false) := by
  refine ⟨?_, rfl, ?_, ?_⟩
  · rw [cmdEditSt]
    by_cases hu : slotUsed st.disk slot = true
    · rw [if_pos hu]
      rfl
    · rw [if_neg hu]
      exact hp
  · intro hu
    rw [cmdEditSt, if_pos hu]
    exact refreshed_slotUpdateState qs _
  · intro hAll
    have hfade : ∀ i, env.probeOk i = true ∧ env.fadeOk i = true :=
      fun i => ⟨(hAll i).1, (hAll i).2.1⟩
    have hov : ∀ i, env.overlayOk i = true := fun i => (hAll i).2.2
    have hprog : (slotUpdateStateSt qs (slotCompressSt qs st)).progress = false :=
      ((compressGo_progress qs (qs + 1) 1 st).1).trans hp
    rw [cmdExportSt_eq]
    by_cases he : ((List.range qs).filter (fun i =>
        ((slotUpdateStateSt qs (slotCompressSt qs st)).disk i).cutted.isSome)).isEmpty
    · rw [if_pos he]
      exact ⟨rfl, hprog⟩
    · rw [if_neg he]
      obtain ⟨d1, hd1⟩ := fadeLoop_ok hfade
        ((List.range qs).filter (fun i =>
          ((slotUpdateStateSt qs (slotCompressSt qs st)).disk i).cutted.isSome))
        (slotUpdateStateSt qs (slotCompressSt qs st)).disk
      obtain ⟨d2, hd2⟩ := overlayLoop_ok hov
        ((List.range qs).filter (fun i =>
          ((slotUpdateStateSt qs (slotCompressSt qs st)).disk i).cutted.isSome)) d1
      simp only [hd1]
      simp only [hd2]
      exact ⟨rfl, rfl⟩

/-- C5 amended witness: with every external step succeeding on the
capacity-2 CUT pool, EDIT ends with the flag cleared and EXPORT neither
throws nor leaves the flag set. -/
theorem c5_amended_witness :
    cutSt2.progress = false ∧
    (cmdEditSt 2 envOk cutSt2 1).progress = false ∧
    (cmdExportSt 2 envOk cutSt2).isThrown = false ∧
    (cmdExportSt 2 envOk cutSt2).progressFlag = false :=
  ⟨rfl, (c5_amended_tool_failure_handling 2 envOk cutSt2 1 rfl).1,
   ((c5_amended_tool_failure_handling 2 envOk cutSt2 1 rfl).2.2.2
     (fun _ => ⟨rfl, rfl, rfl⟩)).1,
   ((c5_amended_tool_failure_handling 2 envOk cutSt2 1 rfl).2.2.2
     (fun _ => ⟨rfl, rfl, rfl⟩)).2⟩

/-- C7 (amended): malformed payloads, unknown command names, out-of-range
slots for EDIT/CLEAR and nonzero slots for TRANSITION/EXPORT/PREVIEW are
rejected with a client error and leave the state untouched; CLEAR or EDIT
of an in-range but already-CLEAR slot also leaves the state untouched, but
is answered with the success reply — the error is only logged server-side,
not reported to the issuing client. -/
theorem c7_amended_validation (qs : Nat) (env : ExtEnv) :
    (∀ st, handle qs env Payload.malformed st = (st, Reply.badRequest)) ∧
    (∀ st c slot,
      c ≠ "EDIT" → c ≠ "CLEAR" → c ≠ "TRANSITION" → c ≠ "EXPORT" →
      c ≠ "PREVIEW" →
      handle qs env (Payload.command c slot) st = (st, Reply.badRequest)) ∧
    (∀ st slot, slot < 1 ∨ (qs : Int) < slot →
      handle qs env (Payload.command "EDIT" slot) st = (st, Reply.badRequest) ∧
      handle qs env (Payload.command "CLEAR" slot) st = (st, Reply.badRequest)) ∧
    (∀ st slot, slot ≠ 0 →
      handle qs env (Payload.command "TRANSITION" slot) st = (st, Reply.badRequest) ∧
      handle qs env (Payload.command "EXPORT" slot) st = (st, Reply.badRequest) ∧
      handle qs env (Payload.command "PREVIEW" slot) st = (st, Reply.badRequest)) ∧
    (∀ st slot, 1 ≤ slot → slot ≤ (qs : Int) →
      slotUsed st.disk slot.toNat = false →
      handle qs env (Payload.command "CLEAR" slot) st = (st, Reply.ok) ∧
      handle qs env (Payload.command "EDIT" slot) st = (st, Reply.ok)) := by
  refine ⟨fun st => rfl, ?_, ?_, ?_, ?_⟩
  · intro st c slot h1 h2 h3 h4 h5
    rw [handle, if_neg (by simp [h1]), if_neg (by simp [h2]),
      if_neg (by simp [h3]), if_neg (by simp [h4]), if_neg (by simp [h5])]
  · intro st slot hr
    constructor
    · rw [handle, if_neg (by rintro ⟨-, hs1, hs2⟩; omega),
        if_neg (by rintro ⟨h, -⟩; exact absurd h (by decide)),
        if_neg (by rintro ⟨h, -⟩; exact absurd h (by decide)),
        if_neg (by rintro ⟨h, -⟩; exact absurd h (by decide)),
        if_neg (by rintro ⟨h, -⟩; exact absurd h (by decide))]
    · rw [handle, if_neg (by rintro ⟨h, -⟩; exact absurd h (by decide)),
        if_neg (by rintro ⟨-, hs1, hs2⟩; omega),
        if_neg (by rintro ⟨h, -⟩; exact absurd h (by decide)),
        if_neg (by rintro ⟨h, -⟩; exact absurd h (by decide)),
        if_neg (by rintro ⟨h, -⟩; exact absurd h (by decide))]
  · intro st slot hz
    refine ⟨?_, ?_, ?_⟩
    · rw [handle, if_neg (by rintro ⟨h, -⟩; exact absurd h (by decide)),
        if_neg (by rintro ⟨h, -⟩; exact absurd h (by decide)),
        if_neg (by rintro ⟨-, h⟩; exact hz h),
        if_neg (by rintro ⟨h, -⟩; exact absurd h (by decide)),
        if_neg (by rintro ⟨h, -⟩; exact absurd h (by decide))]
    · rw [handle, if_neg (by rintro ⟨h, -⟩; exact absurd h (by decide)),
        if_neg (by rintro ⟨h, -⟩; exact absurd h (by decide)),
        if_neg (by rintro ⟨h, -⟩; exact absurd h (by decide)),
        if_neg (by rintro ⟨-, h⟩; exact hz h),
        if_neg (by rintro ⟨h, -⟩; exact absurd h (by decide))]
    · rw [handle, if_neg (by rintro ⟨h, -⟩; exact absurd h (by decide)),
        if_neg (by rintro ⟨h, -⟩; exact absurd h (by decide)),
        if_neg (by rintro ⟨h, -⟩; exact absurd h (by decide)),
        if_neg (by rintro ⟨h, -⟩; exact absurd h (by decide)),
        if_neg (by rintro ⟨-, h⟩; exact hz h)]
  · intro st slot h1 h2 hfree
    constructor
    · rw [handle, if_neg (by rintro ⟨h, -⟩; exact absurd h (by decide)),
        if_pos ⟨rfl, h1, h2⟩, cmdClearSt, if_neg (by simp [hfree])]
    · rw [handle, if_pos ⟨rfl, h1, h2⟩, cmdEditSt, if_neg (by simp [hfree])]

/-- C7 amended witness: concrete instances — wrong-state CLEAR answered
with success, unknown command and out-of-range EDIT answered with client
errors, all leaving the state untouched. -/
theorem c7_amended_witness :
    handle 2 envOk (Payload.command "CLEAR" 1) emptySt = (emptySt, Reply.ok) ∧
    handle 2 envOk (Payload.command "BOGUS" 1) emptySt =
      (emptySt, Reply.badRequest) ∧
    handle 2 envOk (Payload.command "EDIT" 0) emptySt =
      (emptySt, Reply.badRequest) :=
  ⟨((c7_amended_validation 2 envOk).2.2.2.2 emptySt 1 (by decide) (by decide)
      (by decide)).1,
   (c7_amended_validation 2 envOk).2.1 emptySt "BOGUS" 1 (by decide) (by decide)
     (by decide) (by decide) (by decide),
   ((c7_amended_validation 2 envOk).2.2.1 emptySt 0 (by decide)).1⟩


end LiveCut
